import Mathlib

/-!
Verification development for the Scryfall NLP backend (`server.js`): a shallow
embedding of the text normalizer, set-candidate resolver, catalog cache,
per-license rate limiter and the `/api/convert` orchestration, together with
theorems settling the specification claims about them.

Modelling conventions:
* JS strings are Lean `String` (a list of characters); `toLowerCase` is modelled
  ASCII-only via `Char.toLower`, which covers all data the server manipulates.
* Timestamps (`Date.now()`) are `Nat` milliseconds.
* The global mutable state (the `usage` map, `SETS_CACHE`) is passed explicitly
  and returned updated; a JS `Map` is an insertion-ordered association list.
* External collaborators (the Scryfall catalog fetch, the completion service)
  are parameters describing the outcome of the single call a request makes;
  the embedding additionally counts how many external calls were performed.
* `Array.prototype.sort` is stable (ECMA-262); it is modelled by the stable
  `List.insertionSort` with the comparator's total preorder.
-/

namespace Scryfall

/-- One step of `norm` (server.js:19-21): lower-case the character and turn
anything outside `[a-z0-9]` into a space.  Runs of non-alphanumerics become
runs of spaces, collapsed by `collapseSp` below, matching the regex
`/[^a-z0-9]+/g → ' '`. -/
def normChar (c : Char) : Char :=
  let c := c.toLower
  if c.isLower || c.isDigit then c else ' '

/-- Collapse every run of spaces to a single space; the `Bool` records whether
the previous kept character was a space. -/
def collapseSp : Bool → List Char → List Char
  | _, [] => []
  | prevSp, c :: cs =>
    if c = ' ' then
      if prevSp then collapseSp true cs
      else ' ' :: collapseSp true cs
    else c :: collapseSp false cs

/-- Drop leading and trailing spaces (the `.trim()` of `norm`). -/
def trimSp (l : List Char) : List Char :=
  ((l.dropWhile (· = ' ')).reverse.dropWhile (· = ' ')).reverse

/-- The function `norm` (server.js:19-21): lower-case, replace each maximal run of
non-alphanumerics with a single space, trim. -/
def norm (s : String) : String :=
  ⟨trimSp (collapseSp false (s.data.map normChar))⟩

/-- Models `String.prototype.split` at single-space separators, as JS `split(/\s+/)`
behaves on the single-spaced, trimmed strings produced by `norm`/`tighten`
(`"".split(/\s+/)` is `[""]`, which this reproduces). -/
def splitToks (acc : List Char) : List Char → List String
  | [] => [⟨acc.reverse⟩]
  | c :: cs =>
    if c = ' ' then ⟨acc.reverse⟩ :: splitToks [] cs
    else splitToks (c :: acc) cs

/-- Token list of a string (see `splitToks`). -/
def toks (s : String) : List String := splitToks [] s.data

/-- First-occurrence deduplication, as `new Set(xs)` iterated in insertion
order. -/
def dedupFirst (seen : List String) : List String → List String
  | [] => []
  | t :: ts =>
    if seen.contains t then dedupFirst seen ts
    else t :: dedupFirst (t :: seen) ts

/-- Whether `pat` is a prefix of the second list. -/
def isPrefixChars : List Char → List Char → Bool
  | [], _ => true
  | _ :: _, [] => false
  | a :: as, b :: bs => a = b && isPrefixChars as bs

/-- The JS check `s.includes(pat)`: `pat` occurs as a contiguous substring. -/
def isSubstrChars (pat : List Char) : List Char → Bool
  | [] => isPrefixChars pat []
  | l@(_ :: rest) => isPrefixChars pat l || isSubstrChars pat rest

/-- The stop words stripped by the "tightening" transform
(server.js:118, 124). -/
def stopWords : List String :=
  ["the", "set", "edition", "masters", "anthology", "collection", "series"]

/-- Join tokens with single spaces. -/
def joinSp : List String → String
  | [] => ""
  | [t] => t
  | t :: ts => t ++ " " ++ joinSp ts

/-- The tightening transform (server.js:117-120 and 123-126):
`.replace(/\b(the|set|edition|masters|anthology|collection|series)\b/g, ' ')`
followed by whitespace collapse and trim.  It is only ever applied to `norm`
outputs, where the `\b`-delimited alternatives match exactly the whole
space-separated tokens, so it removes the stop-word tokens. -/
def tighten (s : String) : String :=
  joinSp ((toks s).filter (fun w => !stopWords.contains w))

/-- The function `scoreMatch` (server.js:104-111): 100 when `q` contains `nameNorm` as a
substring, otherwise the number of distinct whitespace-delimited tokens of
`nameNorm` also present in `q` (the JS code builds `Set`s of the tokens of
both sides and counts the overlap). -/
def scoreMatch (q nameNorm : String) : Nat :=
  if isSubstrChars nameNorm.data q.data then 100
  else
    let qw := toks q
    let nw := dedupFirst [] (toks nameNorm)
    (nw.filter (fun w => qw.contains w)).length

/-- An entity of the set catalog (server.js:79-84). -/
structure SetEntity where
  code : String
  name : String
  nameNorm : String
  releasedAt : String
deriving Repr, DecidableEq

/-- A catalog entity together with its computed score
(`{ ...s, score }`, server.js:128). -/
structure ScoredSet extends SetEntity where
  score : Nat
deriving Repr, DecidableEq

/-- The sort order of server.js:136:
`(a, b) => b.score - a.score || b.releasedAt.localeCompare(a.releasedAt)` —
score descending, ties broken by release date descending (`localeCompare` on
the server's ASCII date strings is lexicographic comparison).  `candLE a b`
says `a` may come before `b`. -/
def candLE (a b : ScoredSet) : Prop :=
  b.score < a.score ∨ (a.score = b.score ∧ b.releasedAt ≤ a.releasedAt)

instance : DecidableRel candLE := fun a b => by unfold candLE; infer_instance

instance : IsTotal ScoredSet candLE where
  total a b := by
    unfold candLE
    rcases Nat.lt_trichotomy a.score b.score with h | h | h
    · exact Or.inr (Or.inl h)
    · rcases le_total b.releasedAt a.releasedAt with h' | h'
      · exact Or.inl (Or.inr ⟨h, h'⟩)
      · exact Or.inr (Or.inr ⟨h.symm, h'⟩)
    · exact Or.inl (Or.inl h)

instance : IsTrans ScoredSet candLE where
  trans a b c hab hbc := by
    unfold candLE at *
    rcases hab with h1 | ⟨h1, h1'⟩
    · rcases hbc with h2 | ⟨h2, _⟩
      · exact Or.inl (h2.trans h1)
      · exact Or.inl (h2 ▸ h1)
    · rcases hbc with h2 | ⟨h2, h2'⟩
      · exact Or.inl (h1 ▸ h2)
      · exact Or.inr ⟨h1.trans h2, h2'.trans h1'⟩

/-- The scoring loop (server.js:121-129): every entity gets
`max (scoreMatch q nameNorm) (scoreMatch qTight sTight)`; entities scoring
below 1 are discarded.  `q` is the already-normalized query. -/
def scoredCandidates (sets : List SetEntity) (q : String) : List ScoredSet :=
  let qTight := tighten q
  sets.filterMap (fun s =>
    let sTight := tighten s.nameNorm
    let score := max (scoreMatch q s.nameNorm) (scoreMatch qTight sTight)
    if 1 ≤ score then some ⟨s, score⟩ else none)

/-- One `bestByCode.set` step (server.js:130-134): if the accumulator already
holds the code, replace that entry exactly when the new score is strictly
greater; otherwise append.  (A JS `Map` updates in place and preserves the
first-insertion position, which this list update reproduces.) -/
def updateBest : List ScoredSet → ScoredSet → List ScoredSet
  | [], s => [s]
  | p :: rest, s =>
    if p.code = s.code then
      (if p.score < s.score then s :: rest else p :: rest)
    else p :: updateBest rest s

/-- The code-dedup pass (server.js:130-134). -/
def bestByCode (l : List ScoredSet) : List ScoredSet :=
  l.foldl updateBest []

/-- The pure part of `getSetCandidatesFromQuery` (server.js:113-138), taking
the catalog snapshot as an argument: normalize, bail out on empty query,
score, dedup by code, sort (stably, as ECMA-262 specifies), truncate to
`k`. -/
def getSetCandidatesPure (sets : List SetEntity) (query : String) (k : Nat) :
    List ScoredSet :=
  let q := norm query
  if q = "" then []
  else ((bestByCode (scoredCandidates sets q)).insertionSort candLE).take k

/-! ### Catalog cache (server.js:67-102) -/

/-- A raw entry of the external catalog response (`json.data`); each field may
be absent or empty, handled by the `|| default` fallbacks of server.js:79-84. -/
structure RawSet where
  code : Option String
  name : Option String
  released_at : Option String
deriving Repr, DecidableEq

/-- JS `x || d` for a possibly-missing string (both `undefined` and `""` are
falsy). -/
def jsOr (o : Option String) (d : String) : String :=
  match o with
  | some s => if s = "" then d else s
  | none => d

/-- Models `String.prototype.toLowerCase` (ASCII). -/
def lowerStr (s : String) : String := ⟨s.data.map Char.toLower⟩

/-- The entity shape built from a raw catalog entry (server.js:79-84). -/
def mkEntity (s : RawSet) : SetEntity :=
  { code := lowerStr (jsOr s.code "")
    name := jsOr s.name ""
    nameNorm := norm (jsOr s.name "")
    releasedAt := jsOr s.released_at "0000-00-00" }

/-- The hand-curated alias list (server.js:86-97), release date `9999-99-99`. -/
def aliasSets : List SetEntity :=
  [⟨"cmm", "commander masters", norm "commander masters", "9999-99-99"⟩,
   ⟨"cma", "commander anthology", norm "commander anthology", "9999-99-99"⟩,
   ⟨"mm2", "modern masters 2015", norm "modern masters 2015", "9999-99-99"⟩,
   ⟨"mh2", "modern horizons 2", norm "modern horizons 2", "9999-99-99"⟩,
   ⟨"2xm", "double masters", norm "double masters", "9999-99-99"⟩,
   ⟨"dom", "dominaria", norm "dominaria", "9999-99-99"⟩,
   ⟨"dmu", "dominaria united", norm "dominaria united", "9999-99-99"⟩]

/-- The cache `SETS_CACHE` (server.js:68). -/
structure SetsCache where
  data : Option (List SetEntity)
  fetchedAt : Nat
deriving Repr, DecidableEq

/-- The constant `SETS_TTL_MS` (server.js:69). -/
def SETS_TTL_MS : Nat := 24 * 60 * 60 * 1000

/-- Outcome of the single external `fetch('https://api.scryfall.com/sets')`
this request would perform: a successful response with its data, or a
non-success/failed response. -/
inductive FetchOutcome where
  | ok (sets : List RawSet)
  | fail
deriving Repr, DecidableEq

/-- The fetch-and-fill branch of `fetchAllSets` (server.js:75-101).  Returns
the result (the entity list, or the thrown `'Failed to load Scryfall sets'`),
the new cache, and the number of external fetches performed (here 1). -/
def doFetch (now : Nat) (cache : SetsCache) (ext : FetchOutcome) :
    Except String (List SetEntity) × SetsCache × Nat :=
  match ext with
  | .fail => (.error "Failed to load Scryfall sets", cache, 1)
  | .ok raw =>
    let sets := raw.map mkEntity ++ aliasSets
    (.ok sets, ⟨some sets, now⟩, 1)

/-- The function `fetchAllSets` (server.js:71-102): serve the cache while fresh, otherwise
perform the external fetch. -/
def fetchAllSets (now : Nat) (cache : SetsCache) (ext : FetchOutcome) :
    Except String (List SetEntity) × SetsCache × Nat :=
  match cache.data with
  | some d =>
    if now - cache.fetchedAt < SETS_TTL_MS then (.ok d, cache, 0)
    else doFetch now cache ext
  | none => doFetch now cache ext

/-- The function `getSetCandidatesFromQuery` (server.js:113-138) with its state and
external collaborator made explicit.  Note the source awaits `fetchAllSets()`
*before* normalizing the query and checking for emptiness. -/
def getSetCandidatesFromQuery (now : Nat) (cache : SetsCache)
    (ext : FetchOutcome) (query : String) (k : Nat) :
    Except String (List ScoredSet) × SetsCache × Nat :=
  match fetchAllSets now cache ext with
  | (.error e, c, n) => (.error e, c, n)
  | (.ok sets, c, n) => (.ok (getSetCandidatesPure sets query k), c, n)

/-! ### Rate limiter (server.js:23-65) -/

/-- The `RATE_WINDOW_MS` default (server.js:24). -/
def WINDOW_MS : Nat := 60 * 60 * 1000

/-- The `RATE_MAX_REQUESTS` default (server.js:25). -/
def MAX_REQUESTS : Nat := 60

/-- A value of the `usage` map (server.js:26): `{ count, resetAt }`. -/
structure RateRecord where
  count : Nat
  resetAt : Nat
deriving Repr, DecidableEq

/-- The `usage` map: license key to window record, insertion-ordered. -/
abbrev UsageMap := List (String × RateRecord)

/-- The JS `Map.set`: update the (unique) entry in place, else append —
exactly a JS `Map.set`. -/
def mapSet : UsageMap → String → RateRecord → UsageMap
  | [], k, v => [(k, v)]
  | (k', v') :: rest, k, v =>
    if k' = k then (k, v) :: rest else (k', v') :: mapSet rest k v

/-- The record `rateLimitPerLicense` works with after the lazy-creation step
(server.js:44-45): the stored record, replaced by a fresh window when absent
or expired (`now >= resetAt`). -/
def currentRec (now : Nat) (usage : UsageMap) (k : String) : RateRecord :=
  match usage.lookup k with
  | some r => if now ≥ r.resetAt then ⟨0, now + WINDOW_MS⟩ else r
  | none => ⟨0, now + WINDOW_MS⟩

/-- Result of one `rateLimitPerLicense` invocation: the missing-key `401`,
the `429` rejection (with `resetSeconds` as computed on server.js:52), or
admission to the route (`next()`), carrying the reported
`RateLimit-Remaining` value `MAX_REQUESTS - count` and the record's
`resetAt`. -/
inductive RateResult where
  | missing
  | rejected (limit : Nat) (resetSeconds : Nat)
  | admitted (remaining : Nat) (resetAt : Nat)
deriving Repr, DecidableEq

/-- The middleware `rateLimitPerLicense` (server.js:37-59), with `Date.now()` and the
`usage` map explicit.  `Math.ceil((resetAt - now)/1000)` is
`(resetAt - now + 999) / 1000` in the reachable case `now < resetAt`. -/
def rateLimitPerLicense (key : Option String) (now : Nat) (usage : UsageMap) :
    RateResult × UsageMap :=
  match key with
  | none => (.missing, usage)
  | some k =>
    let r0 := currentRec now usage k
    if MAX_REQUESTS ≤ r0.count then
      (.rejected MAX_REQUESTS ((r0.resetAt - now + 999) / 1000), usage)
    else
      (.admitted (MAX_REQUESTS - (r0.count + 1)) r0.resetAt,
       mapSet usage k ⟨r0.count + 1, r0.resetAt⟩)

/-- The periodic cleanup body (server.js:62-65): delete every record with
`now > resetAt + WINDOW_MS`. -/
def sweepUsage (now : Nat) (usage : UsageMap) : UsageMap :=
  usage.filter (fun p => !decide (p.2.resetAt + WINDOW_MS < now))

/-- A sequence of `rateLimitPerLicense` calls for one key at the given times,
collecting the per-call results and threading the `usage` map. -/
def runCalls (k : String) (usage : UsageMap) : List Nat → List RateResult × UsageMap
  | [] => ([], usage)
  | t :: ts =>
    let p := rateLimitPerLicense (some k) t usage
    let rest := runCalls k p.2 ts
    (p.1 :: rest.1, rest.2)

/-! ### Explicit-code extraction (server.js:281-284)

The two regexes
`/\(\s*([A-Za-z0-9]{2,5})\s*\)/` and
`/\b(?:set|code)\s*[:=]?\s*([A-Za-z0-9]{2,5})\b/i`
are embedded as left-to-right scanners.  The bounded greedy repetition
`[A-Za-z0-9]{2,5}` with its required follower (`\s*\)` resp. `\b`) matches at
a position exactly when the maximal alphanumeric run there has length 2 to 5
and the follower comes next (any shorter take leaves an alphanumeric — a word
character — immediately after, failing the follower), which is what the
scanners test. -/

/-- JS `\s` (ASCII part). -/
def isWsChar (c : Char) : Bool :=
  c = ' ' || c = '\t' || c = '\n' || c = '\r' || c = '\x0b' || c = '\x0c'

/-- The character class `[A-Za-z0-9]`. -/
def isAlnumChar (c : Char) : Bool := c.isUpper || c.isLower || c.isDigit

/-- JS `\w` = `[A-Za-z0-9_]`. -/
def isWordChar (c : Char) : Bool := isAlnumChar c || c = '_'

/-- Try the parenthesis pattern at this position. -/
def parenAt : List Char → Option String
  | '(' :: rest =>
    let r1 := rest.dropWhile isWsChar
    let run := r1.takeWhile isAlnumChar
    let r2 := (r1.dropWhile isAlnumChar).dropWhile isWsChar
    if 2 ≤ run.length && run.length ≤ 5 then
      match r2 with
      | ')' :: _ => some ⟨run⟩
      | _ => none
    else none
  | _ => none

/-- Leftmost match of the parenthesis pattern. -/
def scanParen : List Char → Option String
  | [] => none
  | c :: rest =>
    match parenAt (c :: rest) with
    | some s => some s
    | none => scanParen rest

/-- Strip a case-insensitive `set` or `code` label (alternation order as in
the regex). -/
def stripLabel (l : List Char) : Option (List Char) :=
  if (l.take 3).map Char.toLower = ['s', 'e', 't'] then some (l.drop 3)
  else if (l.take 4).map Char.toLower = ['c', 'o', 'd', 'e'] then some (l.drop 4)
  else none

/-- Try the labelled pattern at this position; `prevIsWord` tells whether the
preceding character is a word character (for the leading `\b`). -/
def labelAt (prevIsWord : Bool) (l : List Char) : Option String :=
  if prevIsWord then none
  else
    match stripLabel l with
    | none => none
    | some rest =>
      let r1 := rest.dropWhile isWsChar
      let r2 := match r1 with
        | c :: cs => if c = ':' || c = '=' then cs else r1
        | [] => r1
      let r3 := r2.dropWhile isWsChar
      let run := r3.takeWhile isAlnumChar
      let after := r3.dropWhile isAlnumChar
      let boundaryOk := match after with
        | [] => true
        | c :: _ => !isWordChar c
      if 2 ≤ run.length && run.length ≤ 5 && boundaryOk then some ⟨run⟩
      else none

/-- Leftmost match of the labelled pattern. -/
def scanLabel : Bool → List Char → Option String
  | _, [] => none
  | prev, c :: rest =>
    match labelAt prev (c :: rest) with
    | some s => some s
    | none => scanLabel (isWordChar c) rest

/-- The explicit-code extraction of server.js:281-284: first regex, else
second; the result is the capture group. -/
def extractExplicitCode (query : String) : Option String :=
  match scanParen query.data with
  | some c => some c
  | none => scanLabel false query.data

/-! ### The `/api/convert` route (server.js:277-385) -/

/-- JS `String.prototype.trim`. -/
def jsTrim (s : String) : String :=
  ⟨((s.data.dropWhile isWsChar).reverse.dropWhile isWsChar).reverse⟩

/-- The set-selection directive appended to the system prompt: none, the
explicit-code block (server.js:289-295), the single-candidate block
(server.js:299-305), or the candidate-list block (server.js:307-316). -/
inductive Directive where
  | noneD
  | explicitCode (code : String)
  | resolvedSingle (code : String) (name : String)
  | candidateList (cands : List ScoredSet)
deriving Repr, DecidableEq

/-- Body of an HTTP response of the route: an `{error}` or a converted
result `{syntax}`. -/
inductive RespBody where
  | err (msg : String)
  | conv (result : String)
deriving Repr, DecidableEq

/-- An HTTP response: status and JSON body. -/
structure HttpResp where
  status : Nat
  body : RespBody
deriving Repr, DecidableEq

/-- Everything observable about one `/api/convert` request: the response
(`none` when the handler's async error escapes uncaught, so no response is
produced by the route), the final `usage` map and catalog cache, how many
external catalog fetches and completion calls were made, and which directive
was built. -/
structure ConvertResult where
  resp : Option HttpResp
  usage : UsageMap
  cache : SetsCache
  catalogFetches : Nat
  completionCalls : Nat
  directive : Directive
deriving Repr, DecidableEq

/-- The completion call and surrounding try/catch (server.js:320-384):
one external call; a non-ok response throws
`'AI service temporarily unavailable'`, mapped by the catch to a 500;
an ok response yields `{syntax: text.trim()}`. `completionExt` is the
outcome of the single call (`some t`: ok with text `t`; `none`: failure). -/
def completionStep (completionExt : Option String) (u : UsageMap)
    (c : SetsCache) (n : Nat) (d : Directive) : ConvertResult :=
  match completionExt with
  | some t => ⟨some ⟨200, .conv (jsTrim t)⟩, u, c, n, 1, d⟩
  | none => ⟨some ⟨500, .err "AI service temporarily unavailable"⟩, u, c, n, 1, d⟩

/-- The `/api/convert` route (server.js:277-385): `requireLicense`
(server.js:148-159), then `rateLimitPerLicense`, then the handler: missing
query check, explicit-code extraction, candidate resolution (whose catalog
fetch is awaited *outside* the try/catch — its failure escapes the handler),
directive construction, and the completion call. -/
def convertHandler (licenseKey : Option String) (query : Option String)
    (validLicenses : List String) (now : Nat) (usage : UsageMap)
    (cache : SetsCache) (catalogExt : FetchOutcome)
    (completionExt : Option String) : ConvertResult :=
  match licenseKey with
  | none => ⟨some ⟨401, .err "License key required"⟩, usage, cache, 0, 0, .noneD⟩
  | some key =>
    if key ∈ validLicenses then
      match rateLimitPerLicense (some key) now usage with
      | (.missing, u) =>
        ⟨some ⟨401, .err "License key required"⟩, u, cache, 0, 0, .noneD⟩
      | (.rejected _ _, u) =>
        ⟨some ⟨429, .err "Rate limit exceeded. Try again later."⟩, u, cache, 0, 0, .noneD⟩
      | (.admitted _ _, u) =>
        let q := query.getD ""
        if q = "" then
          ⟨some ⟨400, .err "Query is required"⟩, u, cache, 0, 0, .noneD⟩
        else
          match extractExplicitCode q with
          | some code =>
            completionStep completionExt u cache 0 (.explicitCode (lowerStr code))
          | none =>
            match getSetCandidatesFromQuery now cache catalogExt q 6 with
            | (.error _, c, n) => ⟨none, u, c, n, 0, .noneD⟩
            | (.ok cands, c, n) =>
              let d : Directive :=
                match cands with
                | [] => .noneD
                | [single] => .resolvedSingle single.code single.name
                | _ => .candidateList cands
              completionStep completionExt u c n d
    else
      ⟨some ⟨403, .err "Invalid license key"⟩, usage, cache, 0, 0, .noneD⟩

/-! ### Rate limiter lemmas -/

theorem lookup_mapSet (u : UsageMap) (k : String) (v : RateRecord) :
    (mapSet u k v).lookup k = some v := by
  induction u with
  | nil => simp [mapSet, List.lookup]
  | cons p rest ih =>
    obtain ⟨k', v'⟩ := p
    by_cases h : k' = k
    · simp [mapSet, h, List.lookup]
    · have hb : (k == k') = false := beq_eq_false_iff_ne.mpr (Ne.symm h)
      simpa [mapSet, h, List.lookup, hb] using ih

theorem rateLimit_first (k : String) (u : UsageMap) (t : Nat)
    (hlk : u.lookup k = none) :
    rateLimitPerLicense (some k) t u =
      (.admitted (MAX_REQUESTS - 1) (t + WINDOW_MS),
       mapSet u k ⟨1, t + WINDOW_MS⟩) := by
  simp [rateLimitPerLicense, currentRec, hlk, MAX_REQUESTS]

theorem rateLimit_admit (k : String) (u : UsageMap) (t : Nat) (c R : Nat)
    (hlk : u.lookup k = some ⟨c, R⟩) (ht : t < R) (hc : c < MAX_REQUESTS) :
    rateLimitPerLicense (some k) t u =
      (.admitted (MAX_REQUESTS - (c + 1)) R, mapSet u k ⟨c + 1, R⟩) := by
  simp [rateLimitPerLicense, currentRec, hlk, Nat.not_le.mpr ht, Nat.not_le.mpr hc]

theorem rateLimit_reject (k : String) (u : UsageMap) (t : Nat) (c R : Nat)
    (hlk : u.lookup k = some ⟨c, R⟩) (ht : t < R) (hc : MAX_REQUESTS ≤ c) :
    rateLimitPerLicense (some k) t u =
      (.rejected MAX_REQUESTS ((R - t + 999) / 1000), u) := by
  simp [rateLimitPerLicense, currentRec, hlk, Nat.not_le.mpr ht, hc]

theorem runCalls_admits (k : String) (ts : List Nat) (u : UsageMap) (c R : Nat)
    (hlk : u.lookup k = some ⟨c, R⟩)
    (hts : ∀ t ∈ ts, t < R)
    (hc : c + ts.length ≤ MAX_REQUESTS) :
    (runCalls k u ts).1 =
      (List.range ts.length).map
        (fun i => RateResult.admitted (MAX_REQUESTS - (c + 1 + i)) R) ∧
    (runCalls k u ts).2.lookup k = some ⟨c + ts.length, R⟩ := by
  induction ts generalizing u c with
  | nil => simpa [runCalls] using hlk
  | cons t ts ih =>
    have ht : t < R := hts t (by simp)
    have hc1 : c < MAX_REQUESTS := by
      simp only [List.length_cons] at hc; omega
    have hstep := rateLimit_admit k u t c R hlk ht hc1
    have hlk' : (mapSet u k ⟨c + 1, R⟩).lookup k = some ⟨c + 1, R⟩ :=
      lookup_mapSet u k ⟨c + 1, R⟩
    have hrec := ih (mapSet u k ⟨c + 1, R⟩) (c + 1) hlk'
      (fun t' ht' => hts t' (by simp [ht']))
      (by simp only [List.length_cons] at hc; omega)
    refine ⟨?_, ?_⟩
    · simp only [runCalls, hstep, hrec.1, List.length_cons,
        List.range_succ_eq_map, List.map_cons, List.map_map]
      refine congrArg₂ List.cons rfl (List.map_congr_left fun i _ => ?_)
      simp only [Function.comp_apply]
      congr 1
      omega
    · simp only [runCalls, hstep, hrec.2, List.length_cons]
      congr 2
      omega

theorem runCalls_append (k : String) (u : UsageMap) (ts1 ts2 : List Nat) :
    runCalls k u (ts1 ++ ts2) =
      ((runCalls k u ts1).1 ++ (runCalls k (runCalls k u ts1).2 ts2).1,
       (runCalls k (runCalls k u ts1).2 ts2).2) := by
  induction ts1 generalizing u with
  | nil => simp [runCalls]
  | cons t ts ih => simp [runCalls, ih]

/-- Claim C4 —: with `MAX_REQUESTS = 60` and `WINDOW_MS = 1h`, for any identity
with no rate-limit record, 60 calls within one window (the first at `t0`,
the rest before `t0 + WINDOW_MS`) are all admitted with reported remaining
values `59, 58, ..., 0`, and a 61st call within the window is rejected (the
`429` branch) with `resetSeconds > 0` and without mutating the usage table
further. -/
theorem c4_sixty_admits_then_reject (k : String) (u : UsageMap) (t0 : Nat)
    (ts : List Nat) (t60 : Nat)
    (h0 : u.lookup k = none)
    (hlen : ts.length = 59)
    (hts : ∀ t ∈ ts, t < t0 + WINDOW_MS)
    (ht60 : t60 < t0 + WINDOW_MS) :
    (runCalls k u (t0 :: (ts ++ [t60]))).1 =
      (List.range 60).map
        (fun i => RateResult.admitted (59 - i) (t0 + WINDOW_MS))
        ++ [RateResult.rejected MAX_REQUESTS
              ((t0 + WINDOW_MS - t60 + 999) / 1000)] ∧
    0 < (t0 + WINDOW_MS - t60 + 999) / 1000 ∧
    (runCalls k u (t0 :: (ts ++ [t60]))).2 = (runCalls k u (t0 :: ts)).2 := by
  have hfirst := rateLimit_first k u t0 h0
  set u1 := mapSet u k ⟨1, t0 + WINDOW_MS⟩ with hu1
  have hlk1 : u1.lookup k = some ⟨1, t0 + WINDOW_MS⟩ := lookup_mapSet u k _
  have hadm := runCalls_admits k ts u1 1 (t0 + WINDOW_MS) hlk1 hts
    (by rw [hlen]; decide)
  have hrej := rateLimit_reject k (runCalls k u1 ts).2 t60 (1 + ts.length)
    (t0 + WINDOW_MS) hadm.2 ht60 (by rw [hlen]; decide)
  have hsec : 0 < (t0 + WINDOW_MS - t60 + 999) / 1000 := by
    have h1 : (1000 : Nat) ≤ t0 + WINDOW_MS - t60 + 999 := by
      have : WINDOW_MS = 3600000 := rfl
      omega
    exact Nat.div_pos h1 (by norm_num)
  refine ⟨?_, hsec, ?_⟩
  · have hLHS : (runCalls k u (t0 :: (ts ++ [t60]))).1 =
        RateResult.admitted (MAX_REQUESTS - 1) (t0 + WINDOW_MS) ::
          ((List.range ts.length).map
            (fun i => RateResult.admitted (MAX_REQUESTS - (1 + 1 + i)) (t0 + WINDOW_MS))
            ++ [RateResult.rejected MAX_REQUESTS
                  ((t0 + WINDOW_MS - t60 + 999) / 1000)]) := by
      simp [runCalls, hfirst, runCalls_append, hadm.1, hrej]
    rw [hLHS, hlen]
    conv_rhs => rw [show (60 : Nat) = 59 + 1 from rfl, List.range_succ_eq_map]
    simp only [List.map_cons, List.map_map, List.cons_append]
    refine congrArg₂ List.cons rfl (congrArg₂ (· ++ ·) ?_ rfl)
    refine List.map_congr_left fun i _ => ?_
    simp only [Function.comp_apply]
    congr 1
    have hM : MAX_REQUESTS = 60 := rfl
    omega
  · simp [runCalls, hfirst, runCalls_append, hrej]

/-- Witness for C4 at a concrete run: identity `"a"`, empty table, all 61
calls at time 0. -/
theorem c4_witness :
    0 < (0 + WINDOW_MS - 0 + 999) / 1000 ∧
    (runCalls "a" [] (0 :: (List.replicate 59 0 ++ [0]))).1 =
      (List.range 60).map
        (fun i => RateResult.admitted (59 - i) (0 + WINDOW_MS))
        ++ [RateResult.rejected MAX_REQUESTS ((0 + WINDOW_MS - 0 + 999) / 1000)] := by
  have h := c4_sixty_admits_then_reject "a" [] 0 (List.replicate 59 0) 0 rfl
    (by decide) (fun t ht => by rw [List.eq_of_mem_replicate ht]; decide)
    (by decide)
  exact ⟨h.2.1, h.1⟩

/-- Claim C8 —: after a sweep at time `now`, a record is in the table iff it was
there before and `now` is not more than one full window past its `resetAt`;
in particular any record with `now > resetAt + WINDOW_MS` is absent and any
record with `now ≤ resetAt + WINDOW_MS` survives. -/
theorem c8_sweep_membership (now : Nat) (usage : UsageMap) (k : String)
    (v : RateRecord) :
    (k, v) ∈ sweepUsage now usage ↔
      (k, v) ∈ usage ∧ now ≤ v.resetAt + WINDOW_MS := by
  simp [sweepUsage, List.mem_filter, Nat.not_lt]

/-- Witness for C8: a record exactly at the survival bound is kept. -/
theorem c8_witness :
    ("a", (⟨1, 2⟩ : RateRecord)) ∈ sweepUsage (2 + WINDOW_MS) [("a", ⟨1, 2⟩)] :=
  (c8_sweep_membership (2 + WINDOW_MS) [("a", ⟨1, 2⟩)] "a" ⟨1, 2⟩).mpr
    ⟨by decide, by decide⟩

/-! ### Resolver lemmas -/

theorem mem_updateBest {l : List ScoredSet} {s x : ScoredSet}
    (h : x ∈ updateBest l s) : x ∈ l ∨ x = s := by
  induction l with
  | nil => simpa [updateBest] using h
  | cons p rest ih =>
    by_cases hc : p.code = s.code
    · by_cases hs : p.score < s.score
      · simp only [updateBest, if_pos hc, if_pos hs, List.mem_cons] at h
        rcases h with h | h
        · exact Or.inr h
        · exact Or.inl (List.mem_cons_of_mem _ h)
      · simp only [updateBest, if_pos hc, if_neg hs, List.mem_cons] at h
        rcases h with h | h
        · exact Or.inl (by simp [h])
        · exact Or.inl (List.mem_cons_of_mem _ h)
    · simp only [updateBest, if_neg hc, List.mem_cons] at h
      rcases h with h | h
      · exact Or.inl (by simp [h])
      · rcases ih h with h' | h'
        · exact Or.inl (List.mem_cons_of_mem _ h')
        · exact Or.inr h'

theorem foldl_updateBest_mem (proc : List ScoredSet) (acc : List ScoredSet)
    (x : ScoredSet) (hx : x ∈ proc.foldl updateBest acc) :
    x ∈ acc ∨ x ∈ proc := by
  induction proc generalizing acc with
  | nil => exact Or.inl hx
  | cons s rest ih =>
    rcases ih (updateBest acc s) hx with h | h
    · rcases mem_updateBest h with h' | h'
      · exact Or.inl h'
      · exact Or.inr (by simp [h'])
    · exact Or.inr (List.mem_cons_of_mem _ h)

theorem bestByCode_subset {l : List ScoredSet} {x : ScoredSet}
    (hx : x ∈ bestByCode l) : x ∈ l := by
  rcases foldl_updateBest_mem l [] x hx with h | h
  · cases h
  · exact h

theorem codes_updateBest (l : List ScoredSet) (s : ScoredSet) :
    (updateBest l s).map (·.code) =
      if s.code ∈ l.map (·.code) then l.map (·.code)
      else l.map (·.code) ++ [s.code] := by
  induction l with
  | nil => simp [updateBest]
  | cons p rest ih =>
    by_cases hc : p.code = s.code
    · by_cases hs : p.score < s.score <;>
        simp [updateBest, hc, hs]
    · simp only [updateBest, if_neg hc, List.map_cons, ih]
      have hsp : ¬ s.code = p.code := fun h => hc h.symm
      by_cases hmem : s.code ∈ rest.map (·.code)
      · rw [if_pos hmem, if_pos (List.mem_cons_of_mem _ hmem)]
      · rw [if_neg hmem, if_neg (by simp [List.mem_cons, hsp, hmem])]
        rfl

theorem nodup_codes_updateBest {l : List ScoredSet}
    (h : (l.map (·.code)).Nodup) (s : ScoredSet) :
    ((updateBest l s).map (·.code)).Nodup := by
  rw [codes_updateBest]
  split_ifs with hmem
  · exact h
  · simp [List.nodup_append, h, hmem]

theorem nodup_codes_bestByCode (l : List ScoredSet) :
    ((bestByCode l).map (·.code)).Nodup := by
  suffices h : ∀ acc : List ScoredSet, (acc.map (·.code)).Nodup →
      ((l.foldl updateBest acc).map (·.code)).Nodup from h [] (by simp)
  induction l with
  | nil => intro acc h; simpa using h
  | cons s rest ih =>
    intro acc h
    exact ih (updateBest acc s) (nodup_codes_updateBest h s)

theorem updateBest_covers {acc : List ScoredSet} (s : ScoredSet)
    {x : ScoredSet} (hx : x ∈ acc) :
    ∃ z ∈ updateBest acc s, z.code = x.code ∧ x.score ≤ z.score := by
  induction acc with
  | nil => cases hx
  | cons p rest ih =>
    by_cases hc : p.code = s.code
    · by_cases hs : p.score < s.score
      · rcases List.mem_cons.mp hx with rfl | hx'
        · exact ⟨s, by simp [updateBest, hc, hs], hc.symm, Nat.le_of_lt hs⟩
        · exact ⟨x, by simp [updateBest, hc, hs, hx'], rfl, Nat.le_refl _⟩
      · rcases List.mem_cons.mp hx with rfl | hx'
        · exact ⟨x, by simp [updateBest, hc, hs], rfl, Nat.le_refl _⟩
        · exact ⟨x, by simp [updateBest, hc, hs, hx'], rfl, Nat.le_refl _⟩
    · rcases List.mem_cons.mp hx with rfl | hx'
      · exact ⟨x, by simp [updateBest, hc], rfl, Nat.le_refl _⟩
      · rcases ih hx' with ⟨z, hz, hzc, hzs⟩
        exact ⟨z, by simp [updateBest, hc]; exact Or.inr hz, hzc, hzs⟩

theorem updateBest_covers_self (acc : List ScoredSet) (s : ScoredSet) :
    ∃ z ∈ updateBest acc s, z.code = s.code ∧ s.score ≤ z.score := by
  induction acc with
  | nil => exact ⟨s, by simp [updateBest], rfl, Nat.le_refl _⟩
  | cons p rest ih =>
    by_cases hc : p.code = s.code
    · by_cases hs : p.score < s.score
      · exact ⟨s, by simp [updateBest, hc, hs], rfl, Nat.le_refl _⟩
      · exact ⟨p, by simp [updateBest, hc, hs], hc, Nat.le_of_not_lt hs⟩
    · rcases ih with ⟨z, hz, hzc, hzs⟩
      exact ⟨z, by simp [updateBest, hc]; exact Or.inr hz, hzc, hzs⟩

theorem foldl_updateBest_covers (proc : List ScoredSet) :
    ∀ (acc : List ScoredSet) (y : ScoredSet),
      (y ∈ proc ∨ ∃ x ∈ acc, x.code = y.code ∧ y.score ≤ x.score) →
      ∃ x ∈ proc.foldl updateBest acc, x.code = y.code ∧ y.score ≤ x.score := by
  induction proc with
  | nil =>
    intro acc y h
    rcases h with h | h
    · cases h
    · exact h
  | cons s rest ih =>
    intro acc y h
    rcases h with h | ⟨x, hx, hxc, hxs⟩
    · rcases List.mem_cons.mp h with rfl | h'
      · rcases updateBest_covers_self acc y with ⟨z, hz, hzc, hzs⟩
        exact ih (updateBest acc y) y (Or.inr ⟨z, hz, hzc, hzs⟩)
      · exact ih (updateBest acc s) y (Or.inl h')
    · rcases updateBest_covers s hx with ⟨z, hz, hzc, hzs⟩
      exact ih (updateBest acc s) y
        (Or.inr ⟨z, hz, hzc.trans hxc, hxs.trans hzs⟩)

theorem bestByCode_covers {l : List ScoredSet} {y : ScoredSet} (hy : y ∈ l) :
    ∃ x ∈ bestByCode l, x.code = y.code ∧ y.score ≤ x.score :=
  foldl_updateBest_covers l [] y (Or.inl hy)

theorem mem_scoredCandidates {sets : List SetEntity} {q : String}
    {x : ScoredSet} (hx : x ∈ scoredCandidates sets q) :
    x.toSetEntity ∈ sets ∧
    x.score = max (scoreMatch q x.toSetEntity.nameNorm)
        (scoreMatch (tighten q) (tighten x.toSetEntity.nameNorm)) ∧
    1 ≤ x.score := by
  unfold scoredCandidates at hx
  rcases List.mem_filterMap.mp hx with ⟨e, he, hfe⟩
  by_cases h1 : 1 ≤ max (scoreMatch q e.nameNorm)
      (scoreMatch (tighten q) (tighten e.nameNorm))
  · rw [if_pos h1] at hfe
    cases hfe
    exact ⟨he, rfl, h1⟩
  · rw [if_neg h1] at hfe
    cases hfe

theorem scoredCandidates_mem_self {sets : List SetEntity} {q : String}
    {e : SetEntity} (he : e ∈ sets)
    (h1 : 1 ≤ max (scoreMatch q e.nameNorm)
        (scoreMatch (tighten q) (tighten e.nameNorm))) :
    ScoredSet.mk e (max (scoreMatch q e.nameNorm)
        (scoreMatch (tighten q) (tighten e.nameNorm))) ∈ scoredCandidates sets q := by
  unfold scoredCandidates
  exact List.mem_filterMap.mpr ⟨e, he, by rw [if_pos h1]⟩

theorem output_mem_scored {sets : List SetEntity} {query : String} {k : Nat}
    {x : ScoredSet} (hx : x ∈ getSetCandidatesPure sets query k) :
    norm query ≠ "" ∧ x ∈ scoredCandidates sets (norm query) := by
  unfold getSetCandidatesPure at hx
  by_cases hq : norm query = ""
  · rw [if_pos hq] at hx
    cases hx
  · rw [if_neg hq] at hx
    refine ⟨hq, ?_⟩
    have h1 := List.take_subset _ _ hx
    have h2 := (List.perm_insertionSort candLE _).subset h1
    exact bestByCode_subset h2

theorem output_mem_bestByCode {sets : List SetEntity} {query : String} {k : Nat}
    {x : ScoredSet} (hx : x ∈ getSetCandidatesPure sets query k)
    (hq : norm query ≠ "") :
    x ∈ bestByCode (scoredCandidates sets (norm query)) := by
  unfold getSetCandidatesPure at hx
  rw [if_neg hq] at hx
  exact (List.perm_insertionSort candLE _).subset (List.take_subset _ _ hx)

theorem output_pairwise_candLE (sets : List SetEntity) (query : String)
    (k : Nat) : (getSetCandidatesPure sets query k).Pairwise candLE := by
  unfold getSetCandidatesPure
  by_cases hq : norm query = ""
  · simp [hq]
  · rw [if_neg hq]
    exact (List.sorted_insertionSort candLE _).sublist (List.take_sublist _ _)

/-- Claim C5 —: every candidate returned by the resolver is a catalog entity
carrying exactly `score = max (scoreMatch q nameNorm)
(scoreMatch qTight sTight)` for the normalized/tightened query and its own
normalized/tightened name, and entities with score < 1 never appear. -/
theorem c5_candidate_score (sets : List SetEntity) (query : String) (k : Nat)
    (x : ScoredSet) (hx : x ∈ getSetCandidatesPure sets query k) :
    x.toSetEntity ∈ sets ∧
    x.score = max (scoreMatch (norm query) x.toSetEntity.nameNorm)
        (scoreMatch (tighten (norm query)) (tighten x.toSetEntity.nameNorm)) ∧
    1 ≤ x.score :=
  mem_scoredCandidates (output_mem_scored hx).2

/-- Entity used in concrete witnesses. -/
def domEntity : SetEntity := ⟨"dom", "Dominaria", "dominaria", "2018-04-27"⟩

/-- Witness for C5: the `"dom"` candidate of a concrete catalog/query carries
exactly the formula's score. -/
theorem c5_witness :
    (ScoredSet.mk domEntity 100).toSetEntity ∈ [domEntity] ∧
    (ScoredSet.mk domEntity 100).score =
      max (scoreMatch (norm "legendary elves from Dominaria")
            (ScoredSet.mk domEntity 100).toSetEntity.nameNorm)
        (scoreMatch (tighten (norm "legendary elves from Dominaria"))
            (tighten (ScoredSet.mk domEntity 100).toSetEntity.nameNorm)) ∧
    1 ≤ (ScoredSet.mk domEntity 100).score :=
  c5_candidate_score [domEntity] "legendary elves from Dominaria" 6
    (ScoredSet.mk domEntity 100) (by decide)

/-- Claim C6 —: the resolver's output never contains two entries with the same
code, and each output entry's score dominates the score of every scored
entity sharing its code (only a highest-scoring one is kept). -/
theorem c6_code_uniqueness (sets : List SetEntity) (query : String) (k : Nat) :
    (getSetCandidatesPure sets query k).Pairwise (fun a b => a.code ≠ b.code) ∧
    ∀ a ∈ getSetCandidatesPure sets query k,
      ∀ y ∈ scoredCandidates sets (norm query),
        y.code = a.code → y.score ≤ a.score := by
  constructor
  · unfold getSetCandidatesPure
    by_cases hq : norm query = ""
    · simp [hq]
    · rw [if_neg hq]
      have hnd := nodup_codes_bestByCode (scoredCandidates sets (norm query))
      have hpw : (bestByCode (scoredCandidates sets (norm query))).Pairwise
          (fun a b => a.code ≠ b.code) := by
        rw [List.Nodup, List.pairwise_map] at hnd
        exact hnd
      have hperm := List.perm_insertionSort candLE
        (bestByCode (scoredCandidates sets (norm query)))
      have hsorted := ((List.Perm.pairwise_iff
        (fun h => (Ne.symm h)) hperm).mpr hpw)
      exact hsorted.sublist (List.take_sublist _ _)
  · intro a ha y hy hcode
    have hq := (output_mem_scored ha).1
    have haB := output_mem_bestByCode ha hq
    rcases bestByCode_covers hy with ⟨x, hxB, hxc, hxs⟩
    have hnd := nodup_codes_bestByCode (scoredCandidates sets (norm query))
    have hax : x = a :=
      List.inj_on_of_nodup_map hnd hxB haB (by rw [hxc, hcode])
    exact hax ▸ hxs

/-- Witness for C6 (its second part quantifies over members): in a concrete
catalog where two entities share the code `"xx"`, the weaker one's score is
dominated by the kept entry's. -/
theorem c6_witness :
    ∀ a ∈ getSetCandidatesPure
      [⟨"xx", "dominaria", "dominaria", "2018-04-27"⟩,
       ⟨"xx", "elves", "elves", "2019-01-01"⟩]
      "legendary elves from Dominaria" 6,
      ∀ y ∈ scoredCandidates
        [⟨"xx", "dominaria", "dominaria", "2018-04-27"⟩,
         ⟨"xx", "elves", "elves", "2019-01-01"⟩]
        (norm "legendary elves from Dominaria"),
        y.code = a.code → y.score ≤ a.score :=
  (c6_code_uniqueness
    [⟨"xx", "dominaria", "dominaria", "2018-04-27"⟩,
     ⟨"xx", "elves", "elves", "2019-01-01"⟩]
    "legendary elves from Dominaria" 6).2

theorem scoreMatch_substr {q n : String}
    (h : isSubstrChars n.data q.data = true) : scoreMatch q n = 100 := by
  simp [scoreMatch, h]

/-- Claim C9 (amended) —: if entity `a`'s normalized name is a substring of the
normalized query while `b` scores by token overlap only, then `a` precedes
`b` in the resolver's output — *provided* `b`'s token-overlap scores are
below 100 on both scoring paths.  (The unconditional claim is false: token
overlap is uncapped, see the counterexample.) -/
theorem c9_substring_dominance_amended (sets : List SetEntity)
    (query : String) (k : Nat) (a b : ScoredSet)
    (i j : Fin (getSetCandidatesPure sets query k).length)
    (hia : (getSetCandidatesPure sets query k).get i = a)
    (hjb : (getSetCandidatesPure sets query k).get j = b)
    (hsubA : isSubstrChars a.toSetEntity.nameNorm.data (norm query).data = true)
    (hB1 : scoreMatch (norm query) b.toSetEntity.nameNorm < 100)
    (hB2 : scoreMatch (tighten (norm query))
        (tighten b.toSetEntity.nameNorm) < 100) :
    (i : Nat) < (j : Nat) := by
  have ha : a ∈ getSetCandidatesPure sets query k := hia ▸ List.get_mem _ i.1 i.2
  have hb : b ∈ getSetCandidatesPure sets query k := hjb ▸ List.get_mem _ j.1 j.2
  have ha' := mem_scoredCandidates (output_mem_scored ha).2
  have hb' := mem_scoredCandidates (output_mem_scored hb).2
  have haScore : 100 ≤ a.score := by
    rw [ha'.2.1, ← scoreMatch_substr hsubA]
    exact Nat.le_max_left _ _
  have hbScore : b.score < 100 := by
    rw [hb'.2.1]
    exact max_lt hB1 hB2
  by_contra hij
  push_neg at hij
  rcases Nat.lt_or_eq_of_le hij with hlt | heq
  · have hpw := output_pairwise_candLE sets query k
    rw [List.pairwise_iff_get] at hpw
    have hba := hpw j i hlt
    rw [hjb, hia] at hba
    unfold candLE at hba
    rcases hba with h | ⟨h, _⟩ <;> omega
  · have hfin : i = j := Fin.ext heq.symm
    rw [hfin, hjb] at hia
    rw [hia] at hbScore
    omega

/-- Query and entities exhibiting that token overlap is uncapped:
`c9B`'s name consists of 101 distinct tokens, all of which occur in the
query (in reversed order, so not as a substring). -/
def c9Tokens : List String := (List.range 101).map (fun i => "x" ++ toString i)

/-- The 101-token entity name for the C9 counterexample. -/
def c9BigName : String := joinSp c9Tokens

/-- The C9 counterexample query: a substring match for `c9A` plus all of
`c9B`'s tokens in reversed order. -/
def c9Query : String := "zz " ++ joinSp c9Tokens.reverse

/-- Substring-matched entity of the C9 counterexample. -/
def c9A : SetEntity := ⟨"aa", "zz", "zz", "2020-01-01"⟩

/-- Token-overlap-only entity of the C9 counterexample. -/
def c9B : SetEntity := ⟨"bb", c9BigName, c9BigName, "2020-01-01"⟩

set_option maxRecDepth 100000 in
/-- Counterexample to C9 as stated: `c9A`'s normalized name is a substring of
the normalized query (score 100) and `c9B` matches on neither substring path,
yet `c9B` (token overlap 101) is ranked *above* `c9A` in the resolver
output. -/
theorem c9_counterexample :
    isSubstrChars c9A.nameNorm.data (norm c9Query).data = true ∧
    isSubstrChars c9B.nameNorm.data (norm c9Query).data = false ∧
    isSubstrChars (tighten c9B.nameNorm).data
      (tighten (norm c9Query)).data = false ∧
    (getSetCandidatesPure [c9A, c9B] c9Query 6).map (fun s => (s.code, s.score))
      = [("bb", 101), ("aa", 100)] :=
  ⟨by decide, by decide, by decide, by decide⟩

/-- Witness for C9 (amended) at a concrete catalog and query: the substring
match is listed strictly before the token-overlap match. -/
theorem c9_witness :
    ((0 : Nat) < 1) ∧
    (getSetCandidatesPure
      [⟨"dom", "Dominaria", "dominaria", "2018-04-27"⟩,
       ⟨"xx", "united things", "united things", "2020-01-01"⟩]
      "dominaria united cards" 6).length = 2 := by
  refine ⟨?_, by decide⟩
  exact c9_substring_dominance_amended
    [⟨"dom", "Dominaria", "dominaria", "2018-04-27"⟩,
     ⟨"xx", "united things", "united things", "2020-01-01"⟩]
    "dominaria united cards" 6
    ⟨⟨"dom", "Dominaria", "dominaria", "2018-04-27"⟩, 100⟩
    ⟨⟨"xx", "united things", "united things", "2020-01-01"⟩, 1⟩
    ⟨0, by decide⟩ ⟨1, by decide⟩ (by decide) (by decide) (by decide) (by decide)
    (by decide)

/-! ### C10: entities whose tightened name is empty -/

theorem isSubstrChars_nil (l : List Char) : isSubstrChars [] l = true := by
  cases l <;> simp [isSubstrChars, isPrefixChars]

theorem scoreMatch_empty_name (q : String) : scoreMatch q "" = 100 := by
  have h : ("" : String).data = [] := rfl
  rw [scoreMatch, h, isSubstrChars_nil]
  rfl

theorem dedupFirst_subset (l : List String) :
    ∀ seen, ∀ x ∈ dedupFirst seen l, x ∈ l := by
  induction l with
  | nil =>
    intro seen x hx
    simp [dedupFirst] at hx
  | cons t ts ih =>
    intro seen x hx
    by_cases h : seen.contains t
    · rw [dedupFirst, if_pos h] at hx
      exact List.mem_cons_of_mem _ (ih seen x hx)
    · rw [dedupFirst, if_neg h] at hx
      rcases List.mem_cons.mp hx with rfl | hx'
      · exact List.mem_cons_self _ _
      · exact List.mem_cons_of_mem _ (ih _ x hx')

theorem dedupFirst_nodup (l : List String) :
    ∀ seen, (dedupFirst seen l).Nodup ∧ ∀ x ∈ dedupFirst seen l, x ∉ seen := by
  induction l with
  | nil => intro seen; simp [dedupFirst]
  | cons t ts ih =>
    intro seen
    by_cases h : seen.contains t
    · rw [dedupFirst, if_pos h]
      exact ih seen
    · obtain ⟨hnd, hns⟩ := ih (t :: seen)
      rw [dedupFirst, if_neg h]
      refine ⟨List.nodup_cons.mpr ⟨fun hmem => hns t hmem (by simp), hnd⟩, ?_⟩
      intro x hx hxs
      rcases List.mem_cons.mp hx with rfl | hx'
      · exact h (List.elem_iff.mpr hxs)
      · exact hns x hx' (List.mem_cons_of_mem _ hxs)

theorem scoreMatch_le_of_stopword_name (q n : String)
    (ht : ∀ w ∈ toks n, w ∈ stopWords) : scoreMatch q n ≤ 100 := by
  rw [scoreMatch]
  split_ifs with h
  · exact Nat.le_refl _
  · have hsub : ∀ x ∈ dedupFirst [] (toks n), x ∈ stopWords :=
      fun x hx => ht x (dedupFirst_subset (toks n) [] x hx)
    have hnd := (dedupFirst_nodup (toks n) []).1
    have hlen : (dedupFirst [] (toks n)).length ≤ stopWords.length :=
      (List.subperm_of_subset hnd hsub).length_le
    calc (List.filter (fun w => (toks q).contains w)
          (dedupFirst [] (toks n))).length
        ≤ (dedupFirst [] (toks n)).length := List.length_filter_le _ _
      _ ≤ stopWords.length := hlen
      _ ≤ 100 := by norm_num [stopWords]

theorem tighten_eq_empty_of_stopwords (n : String)
    (ht : ∀ w ∈ toks n, w ∈ stopWords) : tighten n = "" := by
  rw [tighten]
  have hfil : (toks n).filter (fun w => !stopWords.contains w) = [] :=
    List.filter_eq_nil_iff.mpr (fun a ha => by simpa using ht a ha)
  rw [hfil]
  rfl

/-- Claim C10 —: a catalog entity whose normalized name consists only of stop
words tightens to the empty string; the empty tightened name is a substring
of every tightened query (raw score 100), so for any query with non-empty
normalized form the entity scores exactly 100 and is included among the
scored candidates. -/
theorem c10_stopword_entity (sets : List SetEntity) (query : String)
    (e : SetEntity) (he : e ∈ sets)
    (ht : ∀ w ∈ toks e.nameNorm, w ∈ stopWords)
    (_hq : norm query ≠ "") :
    tighten e.nameNorm = "" ∧
    scoreMatch (tighten (norm query)) (tighten e.nameNorm) = 100 ∧
    ScoredSet.mk e 100 ∈ scoredCandidates sets (norm query) := by
  have h0 := tighten_eq_empty_of_stopwords e.nameNorm ht
  have h2 : scoreMatch (tighten (norm query)) (tighten e.nameNorm) = 100 := by
    rw [h0]
    exact scoreMatch_empty_name _
  have h1 : scoreMatch (norm query) e.nameNorm ≤ 100 :=
    scoreMatch_le_of_stopword_name _ _ ht
  have hmax : max (scoreMatch (norm query) e.nameNorm)
      (scoreMatch (tighten (norm query)) (tighten e.nameNorm)) = 100 := by
    rw [h2]
    exact Nat.max_eq_right h1
  refine ⟨h0, h2, ?_⟩
  have hmem := scoredCandidates_mem_self (q := norm query) he
    (by rw [hmax]; norm_num)
  rwa [hmax] at hmem

/-- Entity whose normalized name is entirely stop words, for the C10
witness. -/
def masterEntity : SetEntity := ⟨"tms", "The Masters", "the masters", "2020-01-01"⟩

/-- Witness for C10 at a concrete catalog and query. -/
theorem c10_witness :
    tighten masterEntity.nameNorm = "" ∧
    scoreMatch (tighten (norm "cards from the masters set"))
        (tighten masterEntity.nameNorm) = 100 ∧
    ScoredSet.mk masterEntity 100 ∈
      scoredCandidates [masterEntity] (norm "cards from the masters set") :=
  c10_stopword_entity [masterEntity] "cards from the masters set" masterEntity
    (by decide) (by decide) (by decide)

/-! ### The `/api/convert` claims -/

theorem fetchAllSets_count_le (now : Nat) (cache : SetsCache)
    (ext : FetchOutcome) : (fetchAllSets now cache ext).2.2 ≤ 1 := by
  rw [fetchAllSets]
  rcases cache.data with _ | d <;> rcases ext with raw | _ <;>
    simp [doFetch] <;> split_ifs <;> simp [doFetch]

theorem fetchAllSets_fail_ok (now : Nat) (cache : SetsCache)
    {s : List SetEntity} {c : SetsCache} {n : Nat}
    (h : fetchAllSets now cache .fail = (.ok s, c, n)) : n = 0 := by
  rw [fetchAllSets] at h
  rcases hd : cache.data with _ | d
  · rw [hd] at h
    simp [doFetch] at h
  · rw [hd] at h
    split_ifs at h with hfresh
    · exact (congrArg (fun p => p.2.2) h).symm
    · simp [doFetch] at h

theorem getCands_count_le (now : Nat) (cache : SetsCache) (ext : FetchOutcome)
    (query : String) (k : Nat) :
    (getSetCandidatesFromQuery now cache ext query k).2.2 ≤ 1 := by
  rw [getSetCandidatesFromQuery]
  rcases hf : fetchAllSets now cache ext with ⟨res, c, n⟩
  have := fetchAllSets_count_le now cache ext
  rw [hf] at this
  cases res <;> simpa using this

theorem getCands_fail_ok (now : Nat) (cache : SetsCache) (query : String)
    (k : Nat) {l : List ScoredSet} {c : SetsCache} {n : Nat}
    (h : getSetCandidatesFromQuery now cache .fail query k = (.ok l, c, n)) :
    n = 0 := by
  rw [getSetCandidatesFromQuery] at h
  rcases hf : fetchAllSets now cache .fail with ⟨res, c', n'⟩
  rw [hf] at h
  cases res with
  | error e => simp at h
  | ok s =>
    simp at h
    exact h.2.2 ▸ fetchAllSets_fail_ok now cache hf

theorem rateLimit_admit_cur (k : String) (now : Nat) (u : UsageMap)
    (h : (currentRec now u k).count < MAX_REQUESTS) :
    rateLimitPerLicense (some k) now u =
      (.admitted (MAX_REQUESTS - ((currentRec now u k).count + 1))
         (currentRec now u k).resetAt,
       mapSet u k ⟨(currentRec now u k).count + 1,
         (currentRec now u k).resetAt⟩) := by
  simp [rateLimitPerLicense, Nat.not_le.mpr h]

/-- Claim C1 (amended) —: per request each external collaborator is called at
most once (no retry); when the completion call is reached and fails, the
request fails with HTTP **500** `"AI service temporarily unavailable"` (not
a 502); when the catalog fetch is performed and fails, the error escapes the
route handler uncaught and *no* response is produced at all. -/
theorem c1_upstream_failure (lk q : Option String) (vl : List String)
    (now : Nat) (usage : UsageMap) (cache : SetsCache)
    (catalogExt : FetchOutcome) (completionExt : Option String) :
    (convertHandler lk q vl now usage cache catalogExt completionExt).completionCalls ≤ 1 ∧
    (convertHandler lk q vl now usage cache catalogExt completionExt).catalogFetches ≤ 1 ∧
    (completionExt = none →
      (convertHandler lk q vl now usage cache catalogExt completionExt).completionCalls = 1 →
      (convertHandler lk q vl now usage cache catalogExt completionExt).resp =
        some ⟨500, .err "AI service temporarily unavailable"⟩) ∧
    (catalogExt = .fail →
      (convertHandler lk q vl now usage cache catalogExt completionExt).catalogFetches = 1 →
      (convertHandler lk q vl now usage cache catalogExt completionExt).resp = none) := by
  rw [convertHandler.eq_def]
  rcases lk with _ | key
  · simp
  dsimp only
  by_cases hkey : key ∈ vl
  case neg => simp [hkey]
  rw [if_pos hkey]
  rcases hr : rateLimitPerLicense (some key) now usage with ⟨res, u⟩
  cases res with
  | missing => simp
  | rejected limit secs => simp
  | admitted rem resetAt =>
    dsimp only
    by_cases hq : q.getD "" = ""
    · simp [hq]
    · rw [if_neg hq]
      rcases hx : extractExplicitCode (q.getD "") with _ | code
      · dsimp only
        rcases hg : getSetCandidatesFromQuery now cache catalogExt (q.getD "") 6
          with ⟨res2, c2, n2⟩
        have hn2 : n2 ≤ 1 := by
          have hle := getCands_count_le now cache catalogExt (q.getD "") 6
          rw [hg] at hle
          simpa using hle
        cases res2 with
        | error e =>
          exact ⟨by simp, by simpa using hn2, by simp, by simp⟩
        | ok cands =>
          refine ⟨?_, ?_, ?_, ?_⟩
          · cases completionExt <;> simp [completionStep]
          · cases completionExt <;> simpa [completionStep] using hn2
          · intro hnone _
            subst hnone
            simp [completionStep]
          · intro hfail hcount
            subst hfail
            have hzero : n2 = 0 := getCands_fail_ok now cache (q.getD "") 6 hg
            cases completionExt <;> simp [completionStep] at hcount ⊢ <;> omega
      · refine ⟨?_, ?_, ?_, ?_⟩
        · cases completionExt <;> simp [completionStep]
        · cases completionExt <;> simp [completionStep]
        · intro hnone _
          subst hnone
          simp [completionStep]
        · intro _ hcount
          cases completionExt <;> simp [completionStep] at hcount ⊢

/-- Counterexample to C1 as stated: at concrete inputs, a failed completion
call yields HTTP **500** (not a 502-class status), and a failed catalog
fetch yields no error response at all (the rejection escapes the handler). -/
theorem c1_counterexample :
    (convertHandler (some "K") (some "blue (CMM) cards") ["K"] 0 []
        ⟨some [], 0⟩ .fail none).resp
      = some ⟨500, .err "AI service temporarily unavailable"⟩ ∧
    (convertHandler (some "K") (some "blue dinosaurs") ["K"] 0 []
        ⟨none, 0⟩ .fail none).resp = none :=
  ⟨by decide, by decide⟩

/-- Witness for C1 (amended), discharging its inner hypotheses at a concrete
request whose completion call fails. -/
theorem c1_witness :
    (convertHandler (some "K") (some "blue (CMM) cards") ["K"] 0 []
        ⟨some [], 0⟩ .fail none).resp
      = some ⟨500, .err "AI service temporarily unavailable"⟩ :=
  (c1_upstream_failure (some "K") (some "blue (CMM) cards") ["K"] 0 []
      ⟨some [], 0⟩ .fail none).2.2.1 rfl (by decide)

/-- Claim C2 (amended) —: the identity check runs first and the rate-limit check
second, both before any upstream call: a missing identity yields 401 and an
invalid identity 403, in both cases leaving the usage table untouched and
performing no external call (the 403 wins even when the quota is already
exhausted).  However, the query is validated only *after* the rate limiter,
so a request with a missing (or empty) query and a valid identity is
rejected 400 while still consuming a quota slot. -/
theorem c2_validation_order (q : Option String) (vl : List String)
    (now : Nat) (usage : UsageMap) (cache : SetsCache)
    (catalogExt : FetchOutcome) (completionExt : Option String) :
    (convertHandler none q vl now usage cache catalogExt completionExt =
      ⟨some ⟨401, .err "License key required"⟩, usage, cache, 0, 0, .noneD⟩) ∧
    (∀ key, key ∉ vl →
      convertHandler (some key) q vl now usage cache catalogExt completionExt =
        ⟨some ⟨403, .err "Invalid license key"⟩, usage, cache, 0, 0, .noneD⟩) ∧
    (∀ key, key ∈ vl → (currentRec now usage key).count < MAX_REQUESTS →
      (q = none ∨ q = some "") →
      convertHandler (some key) q vl now usage cache catalogExt completionExt =
        ⟨some ⟨400, .err "Query is required"⟩,
         mapSet usage key ⟨(currentRec now usage key).count + 1,
           (currentRec now usage key).resetAt⟩,
         cache, 0, 0, .noneD⟩) := by
  refine ⟨rfl, ?_, ?_⟩
  · intro key hkey
    simp [convertHandler, hkey]
  · intro key hkey hcount hq
    rw [convertHandler.eq_def]
    dsimp only
    rw [if_pos hkey, rateLimit_admit_cur key now usage hcount]
    have hq' : q.getD "" = "" := by
      rcases hq with rfl | rfl <;> rfl
    simp [hq']

/-- Counterexample to C2 as stated: a request with a valid license and a
missing query is rejected as invalid input (400) yet consumes a quota slot —
the identity's rate-limit record goes from absent to `count = 1`. -/
theorem c2_counterexample :
    (convertHandler (some "K") none ["K"] 0 [] ⟨none, 0⟩ .fail none).resp
      = some ⟨400, .err "Query is required"⟩ ∧
    (convertHandler (some "K") none ["K"] 0 [] ⟨none, 0⟩ .fail none).usage
      = [("K", ⟨1, WINDOW_MS⟩)] ∧
    ([] : UsageMap).lookup "K" = none :=
  ⟨by decide, by decide, rfl⟩

/-- Witness for C2 (amended) at concrete requests: the invalid-identity case
leaves the table unchanged, the missing-query case consumes a slot. -/
theorem c2_witness :
    (convertHandler (some "BAD") (some "x") ["K"] 0 [] ⟨none, 0⟩ .fail none =
      ⟨some ⟨403, .err "Invalid license key"⟩, [], ⟨none, 0⟩, 0, 0, .noneD⟩) ∧
    (convertHandler (some "K") none ["K"] 0 [] ⟨none, 0⟩ .fail none =
      ⟨some ⟨400, .err "Query is required"⟩,
       mapSet [] "K" ⟨(currentRec 0 [] "K").count + 1, (currentRec 0 [] "K").resetAt⟩,
       ⟨none, 0⟩, 0, 0, .noneD⟩) :=
  ⟨(c2_validation_order (some "x") ["K"] 0 [] ⟨none, 0⟩ .fail none).2.1 "BAD"
      (by decide),
   (c2_validation_order none ["K"] 0 [] ⟨none, 0⟩ .fail none).2.2 "K"
      (by decide) (by decide) (Or.inl rfl)⟩

/-- Claim C3 (amended) —: for a query whose normalized form is empty the resolver
does return the empty candidate sequence (or propagates the catalog error) —
but the catalog *is* accessed first: `fetchAllSets` is awaited before the
empty-query check, so with an empty or stale cache an external fetch occurs
and the cache is refreshed. -/
theorem c3_empty_query (now : Nat) (cache : SetsCache) (ext : FetchOutcome)
    (query : String) (k : Nat) (h : norm query = "") :
    (getSetCandidatesFromQuery now cache ext query k).1 = .ok [] ∨
    (getSetCandidatesFromQuery now cache ext query k).1 =
      .error "Failed to load Scryfall sets" := by
  rw [getSetCandidatesFromQuery]
  rcases hf : fetchAllSets now cache ext with ⟨res, c, n⟩
  cases res with
  | error e =>
    right
    have he : e = "Failed to load Scryfall sets" := by
      rw [fetchAllSets] at hf
      rcases hd : cache.data with _ | d
      · rw [hd] at hf
        rcases ext with raw | _ <;> simp [doFetch] at hf
        exact hf.1.symm
      · rw [hd] at hf
        split_ifs at hf with hfresh
        · simp at hf
        · rcases ext with raw | _ <;> simp [doFetch] at hf
          exact hf.1.symm
    simp [he]
  | ok s =>
    left
    simp [getSetCandidatesPure, h]

/-- Counterexample to C3 as stated: with an *empty* cache and an empty
normalized query, the resolver still triggers one external fetch and mutates
the catalog cache. -/
theorem c3_counterexample :
    (getSetCandidatesFromQuery 0 ⟨none, 0⟩ (.ok []) "" 6).1 = .ok [] ∧
    (getSetCandidatesFromQuery 0 ⟨none, 0⟩ (.ok []) "" 6).2.2 = 1 ∧
    (getSetCandidatesFromQuery 0 ⟨none, 0⟩ (.ok []) "" 6).2.1 ≠ ⟨none, 0⟩ :=
  ⟨rfl, by decide, by decide⟩

/-- Witness for C3 (amended) at a concrete empty-normalized query. -/
theorem c3_witness :
    (getSetCandidatesFromQuery 0 ⟨none, 0⟩ (.ok []) "!!" 6).1 = .ok [] ∨
    (getSetCandidatesFromQuery 0 ⟨none, 0⟩ (.ok []) "!!" 6).1 =
      .error "Failed to load Scryfall sets" :=
  c3_empty_query 0 ⟨none, 0⟩ (.ok []) "!!" 6 (by decide)

/-- Claim C7 —: whenever the explicit-code extraction succeeds on the query (a
2-5 character alphanumeric token in parentheses, or after a `set`/`code`
label), a licensed, within-quota request skips fuzzy resolution entirely —
zero catalog fetches, catalog cache untouched — and the directive is the
strict explicit-code block with the code lower-cased. -/
theorem c7_explicit_code (key qs : String) (vl : List String) (now : Nat)
    (usage : UsageMap) (cache : SetsCache) (catalogExt : FetchOutcome)
    (completionExt : Option String) (code : String)
    (hkey : key ∈ vl)
    (hcount : (currentRec now usage key).count < MAX_REQUESTS)
    (hx : extractExplicitCode qs = some code) :
    (convertHandler (some key) (some qs) vl now usage cache catalogExt
        completionExt).directive = Directive.explicitCode (lowerStr code) ∧
    (convertHandler (some key) (some qs) vl now usage cache catalogExt
        completionExt).catalogFetches = 0 ∧
    (convertHandler (some key) (some qs) vl now usage cache catalogExt
        completionExt).cache = cache := by
  have hq : qs ≠ "" := by
    intro h
    rw [h] at hx
    exact Option.noConfusion hx
  rw [convertHandler.eq_def]
  dsimp only
  rw [if_pos hkey, rateLimit_admit_cur key now usage hcount]
  simp only [Option.getD_some, if_neg hq, hx]
  cases completionExt <;> simp [completionStep]

/-- Witness for C7: queries containing `(CMM)` and `set: CMM` both produce
the strict directive for code `cmm` with zero catalog fetches. -/
theorem c7_witness :
    (convertHandler (some "K") (some "blue (CMM) cards") ["K"] 0 []
        ⟨none, 0⟩ .fail none).directive = Directive.explicitCode "cmm" ∧
    (convertHandler (some "K") (some "blue (CMM) cards") ["K"] 0 []
        ⟨none, 0⟩ .fail none).catalogFetches = 0 ∧
    (convertHandler (some "K") (some "set: CMM please") ["K"] 0 []
        ⟨none, 0⟩ .fail none).directive = Directive.explicitCode "cmm" := by
  have h1 := c7_explicit_code "K" "blue (CMM) cards" ["K"] 0 [] ⟨none, 0⟩
    .fail none "CMM" (by decide) (by decide) (by decide)
  have h2 := c7_explicit_code "K" "set: CMM please" ["K"] 0 [] ⟨none, 0⟩
    .fail none "CMM" (by decide) (by decide) (by decide)
  refine ⟨?_, h1.2.1, ?_⟩
  · rw [h1.1]
    decide
  · rw [h2.1]
    decide

end Scryfall
